import Mathlib

/-!
Shallow embedding of the signaling server of nickonindia-chat
(src/server/src/server.ts).  The mutable module state of the server (the
shared Redis waiting pool, the `rooms`, `transports` and `peerRooms` maps,
and the engine-side producers and consumers of the mediasoup worker) is
modelled as an explicit `ServerState` record; each socket event handler
becomes a function from its arguments and the state to a new state,
together with the events it broadcasts and the reply it sends.

External collaborators are modelled at their interface boundary:
- Redis list commands `LPUSH` / `LLEN` / `RPOP` / `LREM` act on `pool`.
- socket.io rooms: every socket is automatically a member of the room
  named by its own id; further memberships exist only after a
  `socket.join` call, which the server source never performs.
- the Media Relay Engine (mediasoup): routers are represented by their
  codec list, producers/consumers by records carrying the fields the
  handlers read (`id`, `kind`, the codec of the rtp parameters, the
  paused flag).
-/

/-- One fire-and-forget message delivered to one socket (the fan-out of an
`io.to(...)` or `socket.to(...)` emit, resolved across replicas by the
redis adapter). -/
structure Event where
  target : String
  name : String
deriving DecidableEq, Repr

/-- server.ts lines 81-96: a WebRTC transport handle as the server stores it
in the `transports` map, with its `appData` (`socketId`, `isProducer`) and
its DTLS connection flag (set by `transport.connect`). -/
structure Transport where
  socketId : String
  isProducer : Bool
  connected : Bool
deriving DecidableEq, Repr

/-- Engine-side producer created by `transport.produce` (server.ts line 114):
its id, the transport that created it, the media kind and the codec of its
rtp parameters. -/
structure Producer where
  id : Nat
  transportId : Nat
  kind : String
  codec : String
deriving DecidableEq, Repr

/-- Engine-side consumer created by `transport.consume` (server.ts line 132).
The server itself stores no consumers ("No need to store consumers on server
for 1-to-1"); this record models the engine object, whose `paused` flag is
the one `resume-consumer` is expected to clear. -/
structure Consumer where
  id : Nat
  producerId : Nat
  socketId : String
  kind : String
  paused : Bool
deriving DecidableEq, Repr

/-- The complete mutable state touched by the handlers of server.ts:
`pool` is the shared Redis list `waiting_pool` (head = left end, the LPUSH
side); `rooms`, `peerRooms`, `transports` are the module-level maps of
lines 14-16; `producers` / `consumers` are the engine-side objects of the
mediasoup worker; `sioMemberships` are socket.io room memberships beyond
the automatic self room (the source never calls `socket.join`, so no
handler ever adds one); `connectedSockets` are the currently connected
socket ids across replicas; `nextId` is a fresh id supply for engine
objects. -/
structure ServerState where
  pool : List String
  rooms : List (String × List String)
  peerRooms : List (String × String)
  transports : List (Nat × Transport)
  producers : List Producer
  consumers : List Consumer
  sioMemberships : List (String × String)
  connectedSockets : List String
  nextId : Nat
deriving DecidableEq, Repr

/-- JS `Map.set`: replace the value under an existing key in place, else
append at the end (JS maps preserve insertion order). -/
def mapSet [DecidableEq κ] (k : κ) (v : α) (m : List (κ × α)) : List (κ × α) :=
  if m.any (fun e => decide (e.1 = k)) then
    m.map (fun e => if e.1 = k then (k, v) else e)
  else m ++ [(k, v)]

/-- JS `Map.delete`. -/
def mapDelete [DecidableEq κ] (k : κ) (m : List (κ × α)) : List (κ × α) :=
  m.filter (fun e => decide (e.1 ≠ k))

/-- Redis `LPUSH`: prepend at the left end of the list. -/
def lPush (x : String) (q : List String) : List String := x :: q

/-- Redis `RPOP`: remove and return the element at the right end — the
oldest entry, since `LPUSH` pushes on the left (returns `none` on an empty
list). -/
def rPop (q : List String) : Option String × List String :=
  (q.getLast?, q.dropLast)

/-- Redis `LREM key 1 x`: remove the first occurrence of `x`, scanning from
the left end. -/
def lRem1 (x : String) (q : List String) : List String := q.erase x

/-- Membership of socket `t` in socket.io room `r`: every socket is
automatically in the room named by its own id; all other memberships would
come from `socket.join`, which server.ts never calls, so in every state
reachable from an initial state `sioMemberships` is empty. -/
def inSioRoom (s : ServerState) (t r : String) : Bool :=
  t == r || s.sioMemberships.contains (t, r)

/-- `io.to(r).emit(ev)`: deliver `ev` to every connected socket that is a
member of room `r`. -/
def ioTo (s : ServerState) (r ev : String) : List Event :=
  (s.connectedSockets.filter (fun t => inSioRoom s t r)).map (fun t => ⟨t, ev⟩)

/-- `socket.to(r).emit(ev)`: deliver `ev` to every connected member of room
`r` except the sender. -/
def socketTo (s : ServerState) (sender r ev : String) : List Event :=
  (s.connectedSockets.filter
    (fun t => decide (t ≠ sender) && inSioRoom s t r)).map (fun t => ⟨t, ev⟩)

/-- server.ts line 59: the media codecs the router of every room is created
with (`audio/opus`, `video/VP8`); the router handle is modelled by this
codec list. -/
def defaultMediaCodecs : List String := ["audio/opus", "video/VP8"]

/-- server.ts line 58: the room name derived from the two popped peer ids. -/
def roomNameOf (a b : String) : String := "room-" ++ a ++ "-" ++ b

/-- The suspension points of the `join` handler (server.ts lines 47-69).
Every `await` on a shared-store command is a point where operations of
other handlers (on any replica) may interleave. -/
inductive JoinPhase where
  | start
  | pushed
  | popping1
  | popping2 (p1 : Option String)
  | pairing (p1 p2 : Option String)
  | done
deriving DecidableEq, Repr

/-- One atomic step of the `join` handler for socket `sid`:
- `start`:    line 48, `lPush(WAITING_POOL_KEY, socket.id)`;
- `pushed`:   line 49-51, `lLen` and the `waitingCount >= 2` branch
              (on the else branch the handler replies `waiting` and ends);
- `popping1`: line 53, first `rPop`;
- `popping2`: line 54, second `rPop`;
- `pairing`:  lines 57-65, if both pops returned an id: create the router,
              `rooms.set`, `peerRooms.set` for both peers in pop order, and
              emit `matched` to each via `io.to(peerId)`; otherwise nothing. -/
def stepJoin (sid : String) (ph : JoinPhase) (s : ServerState) :
    JoinPhase × ServerState × List Event :=
  match ph with
  | .start => (.pushed, { s with pool := lPush sid s.pool }, [])
  | .pushed => if s.pool.length ≥ 2 then (.popping1, s, []) else (.done, s, [])
  | .popping1 =>
      let r := rPop s.pool
      (.popping2 r.1, { s with pool := r.2 }, [])
  | .popping2 p1 =>
      let r := rPop s.pool
      (.pairing p1 r.1, { s with pool := r.2 }, [])
  | .pairing (some a) (some b) =>
      let rn := roomNameOf a b
      let s1 := { s with rooms := mapSet rn defaultMediaCodecs s.rooms,
                         peerRooms := mapSet b rn (mapSet a rn s.peerRooms) }
      (.done, s1, ioTo s1 a "matched" ++ ioTo s1 b "matched")
  | .pairing _ _ => (.done, s, [])
  | .done => (.done, s, [])

/-- Run the phases of one `join` handler to completion with no interleaving
(`start` reaches `done` in at most five steps, so fuel 6 is enough). -/
def runPhases : Nat → String → JoinPhase → ServerState → ServerState × List Event
  | 0, _, _, s => (s, [])
  | n + 1, sid, ph, s =>
      match ph with
      | .done => (s, [])
      | _ =>
          let r := stepJoin sid ph s
          let r2 := runPhases n sid r.1 r.2.1
          (r2.1, r.2.2 ++ r2.2)

/-- The `join` handler (server.ts lines 47-69) run atomically, i.e. with no
other handler interleaving between its shared-store commands. -/
def joinHandler (sid : String) (s : ServerState) : ServerState × List Event :=
  runPhases 6 sid .start s

/-- server.ts lines 71-74, the `getRouterRtpCapabilities` handler: the
callback is invoked with the router capabilities only when the room exists;
for an absent room the handler invokes no callback at all, so the reply is
`none`. -/
def getRouterRtpCapabilitiesHandler (roomName : String) (s : ServerState) :
    Option (List String) :=
  s.rooms.lookup roomName

/-- Reply of the `createWebRtcTransport` handler. -/
inductive CreateTransportReply where
  | ok (id : Nat)
  | error (msg : String)
deriving DecidableEq, Repr

/-- server.ts lines 76-103, the `createWebRtcTransport` handler: fails when
the room has no router, otherwise creates a transport (engine call, fresh
id) with `appData` recording the calling socket and the direction, stores
it in the `transports` map and replies with its parameters. -/
def createWebRtcTransportHandler (sid roomName : String) (isP : Bool)
    (s : ServerState) : ServerState × CreateTransportReply :=
  match s.rooms.lookup roomName with
  | none => (s, .error ("Router not found for room: " ++ roomName))
  | some _ =>
      let t : Transport := ⟨sid, isP, false⟩
      ({ s with transports := mapSet s.nextId t s.transports,
                nextId := s.nextId + 1 },
       .ok s.nextId)

/-- Reply of the `connectTransport` handler. -/
inductive ConnectReply where
  | connected
  | error (msg : String)
deriving DecidableEq, Repr

/-- server.ts lines 104-109, the `connectTransport` handler: looks the
transport up in the `transports` map, replies with an error for an unknown
id, otherwise connects it (engine call, modelled by the `connected` flag)
and acknowledges. -/
def connectTransportHandler (tid : Nat) (s : ServerState) :
    ServerState × ConnectReply :=
  match s.transports.lookup tid with
  | none => (s, .error "Transport not found")
  | some t =>
      ({ s with transports := mapSet tid { t with connected := true } s.transports },
       .connected)

/-- Reply of the `produce` handler. -/
inductive ProduceReply where
  | ok (id : Nat)
  | error (msg : String)
deriving DecidableEq, Repr

/-- server.ts lines 111-121, the `produce` handler: fails for an unknown
transport id; otherwise creates an engine-side producer (fresh id), then
broadcasts `new-producer` to the socket.io room of the caller via
`socket.to(roomName)` — only if the caller has an entry in `peerRooms`,
silently skipping the broadcast otherwise — and in all success cases
replies with the producer id. -/
def produceHandler (sid : String) (tid : Nat) (kind codec : String)
    (s : ServerState) : ServerState × List Event × ProduceReply :=
  match s.transports.lookup tid with
  | none => (s, [], .error "Transport not found")
  | some _ =>
      let p : Producer := ⟨s.nextId, tid, kind, codec⟩
      let s1 := { s with producers := p :: s.producers, nextId := s.nextId + 1 }
      let evts :=
        match s1.peerRooms.lookup sid with
        | some roomName => socketTo s1 sid roomName "new-producer"
        | none => []
      (s1, evts, .ok p.id)

/-- Reply of the `consume` handler. -/
inductive ConsumeReply where
  | ok (id : Nat) (producerId : Nat) (kind : String)
  | error (msg : String)
deriving DecidableEq, Repr

/-- Modelled from the spec: the Media Relay Engine primitive
`router.canConsume({producerId, rtpCapabilities})` of the external
mediasoup engine (spec section 6: "check codec compatibility between a
producer and the capabilities of a requester"; section 4.3: the check fails when
the intersection is empty).  It holds when the producer exists on the
worker and the codec of its rtp parameters is among the requester
capabilities. -/
def canConsume (producers : List Producer) (pid : Nat) (caps : List String) :
    Bool :=
  match producers.find? (fun p => p.id == pid) with
  | some p => caps.contains p.codec
  | none => false

/-- server.ts lines 123-140, the `consume` handler:
`if (!router || !router.canConsume(...))` throws
`Cannot consume producer: <id>` (caught and returned as an error reply);
then the first transport whose `appData` names the calling socket with
`isProducer` false is looked up, its absence throwing
`Receiving transport not found for this consumer`; on success the engine
creates a consumer with `paused: true` whose kind is the kind of the
producer, and the reply carries its id, the producer id and that kind.
The inner `find?` on producers re-reads the producer found by `canConsume`
and cannot return `none` when `canConsume` returned true. -/
def consumeHandler (sid roomName : String) (pid : Nat) (caps : List String)
    (s : ServerState) : ServerState × ConsumeReply :=
  if !(s.rooms.lookup roomName).isSome || !canConsume s.producers pid caps then
    (s, .error ("Cannot consume producer: " ++ toString pid))
  else
    match s.transports.find? (fun e => e.2.socketId == sid && !e.2.isProducer) with
    | none => (s, .error "Receiving transport not found for this consumer")
    | some _ =>
        match s.producers.find? (fun p => p.id == pid) with
        | some p =>
            let c : Consumer := ⟨s.nextId, pid, sid, p.kind, true⟩
            ({ s with consumers := c :: s.consumers, nextId := s.nextId + 1 },
             .ok c.id pid p.kind)
        | none => (s, .error ("Cannot consume producer: " ++ toString pid))

/-- server.ts lines 142-145, the `resume-consumer` handler: its body is
empty ("This is a placeholder ... the client handles it."); it reads
nothing, changes nothing and sends nothing. -/
def resumeConsumerHandler (cid : Nat) (s : ServerState) : ServerState :=
  s

/-- server.ts lines 147-156, the `disconnect` handler: `lRem` the socket id
from the waiting pool; if the socket has a `peerRooms` entry, emit
`peer-disconnected` to its room via `socket.to(roomName)` and delete the
entry.  Nothing else is cleaned up: transports, producers, consumers and
the room router are all left in place.  The closing of the underlying
channel is modelled by removing the socket from `connectedSockets`. -/
def disconnectHandler (sid : String) (s : ServerState) :
    ServerState × List Event :=
  let pool1 := lRem1 sid s.pool
  match s.peerRooms.lookup sid with
  | some roomName =>
      ({ s with pool := pool1,
                peerRooms := mapDelete sid s.peerRooms,
                connectedSockets := s.connectedSockets.erase sid },
       socketTo s sid roomName "peer-disconnected")
  | none =>
      ({ s with pool := pool1,
                connectedSockets := s.connectedSockets.erase sid },
       [])

/-- The state of a fresh deployment with sockets `socks` connected: empty
pool and maps, no engine objects, no socket.io memberships beyond the
automatic self rooms. -/
def initState (socks : List String) : ServerState :=
  { pool := [], rooms := [], peerRooms := [], transports := [],
    producers := [], consumers := [], sioMemberships := [],
    connectedSockets := socks, nextId := 0 }

/-- One in-flight `join` handler of the concurrent system: the socket that
sent the join and the phase the handler has reached. -/
structure CJoin where
  sid : String
  phase : JoinPhase
deriving DecidableEq, Repr

/-- Global state of the concurrent system: the shared server state, the
in-flight join handlers (possibly on different replicas — they share only
the Redis pool and the emitted events), and the events emitted so far. -/
structure ConcState where
  srv : ServerState
  hs : List CJoin
  evs : List Event
deriving DecidableEq, Repr

/-- Advance handler `i` by one atomic step (a no-op for an out-of-range
index or a finished handler). -/
def concStep (cs : ConcState) (i : Nat) : ConcState :=
  match cs.hs.get? i with
  | none => cs
  | some h =>
      match h.phase with
      | .done => cs
      | ph =>
          let r := stepJoin h.sid ph cs.srv
          { srv := r.2.1, hs := cs.hs.set i ⟨h.sid, r.1⟩, evs := cs.evs ++ r.2.2 }

/-- Run a schedule: a list of handler indices, each naming the handler that
performs the next atomic step. -/
def runSched (cs : ConcState) (sched : List Nat) : ConcState :=
  sched.foldl concStep cs

/-- Initial concurrent state: the sockets `sids` are connected and each has
just sent `join`, whose handler is about to start. -/
def mkConc (sids : List String) : ConcState :=
  { srv := initState sids, hs := sids.map (fun x => ⟨x, .start⟩), evs := [] }

/-- One operation of a sequential run of the server: a `join` or a
`disconnect`, each handler running atomically to completion. -/
inductive SOp where
  | join (sid : String)
  | disc (sid : String)
deriving DecidableEq, Repr

/-- The pool contents at every suspension point of one atomically-run
`join` handler (server.ts lines 47-69): after the `lPush` of line 48, and
— when the length check passes — after each of the two `rPop` commands of
lines 53-54 (the pairing block of lines 57-65 does not touch the pool). -/
def joinPools (sid : String) (s : ServerState) : List (List String) :=
  let p1 := lPush sid s.pool
  if p1.length ≥ 2 then [p1, p1.dropLast, p1.dropLast.dropLast]
  else [p1]

/-- The pool contents observable at every suspension point along a
sequential run of operations `ops` from state `s`. -/
def opPools : ServerState → List SOp → List (List String)
  | _, [] => []
  | s, .join sid :: rest =>
      joinPools sid s ++ opPools (joinHandler sid s).1 rest
  | s, .disc sid :: rest =>
      ((disconnectHandler sid s).1).pool ::
        opPools (disconnectHandler sid s).1 rest

/-- A run is safe when no socket sends `join` while its id is still in the
waiting pool (each connection enqueues at most once while waiting). -/
def safeOps : ServerState → List SOp → Bool
  | _, [] => true
  | s, .join sid :: rest =>
      !(s.pool.contains sid) && safeOps (joinHandler sid s).1 rest
  | s, .disc sid :: rest => safeOps (disconnectHandler sid s).1 rest

/-- A sequence of `join` calls, each handler running atomically, threading
only the state (spec section 8, property 1: no disconnects). -/
def runJoins (l : List String) (s : ServerState) : ServerState :=
  l.foldl (fun t p => (joinHandler p t).1) s

/-- The `peerRooms` entries produced by FIFO pairing of consecutive joiners:
peers are paired two at a time in join order, each mapped to the room named
from the pair. -/
def pairAssign : List String → List (String × String)
  | a :: b :: rest =>
      (a, roomNameOf a b) :: (b, roomNameOf a b) :: pairAssign rest
  | _ => []

/-- The `rooms` entries produced by FIFO pairing of consecutive joiners. -/
def pairRooms : List String → List (String × List String)
  | a :: b :: rest => (roomNameOf a b, defaultMediaCodecs) :: pairRooms rest
  | _ => []

/-- The room names produced by FIFO pairing of consecutive joiners. -/
def pairRoomNames : List String → List String
  | a :: b :: rest => roomNameOf a b :: pairRoomNames rest
  | _ => []

/-- The member sockets an association map assigns to room `r`. -/
def assocMembers (m : List (String × String)) (r : String) : List String :=
  (m.filter (fun e => e.2 == r)).map Prod.fst

/-- The member sockets of room `r`: the sockets whose `peerRooms` entry
names `r`. -/
def roomMembers (s : ServerState) (r : String) : List String :=
  assocMembers s.peerRooms r

/-- The state after pairing sockets A and B into `room-A-B`. -/
def pairedAB : ServerState :=
  (joinHandler "B" (joinHandler "A" (initState ["A", "B"])).1).1

/-- A reachable state where A owns receive transport 0, B owns send
transport 1, and B has produced video producer 2 on it. -/
def mediaReadyAB : ServerState :=
  (produceHandler "B" 1 "video" "video/VP8"
    ((createWebRtcTransportHandler "B" "room-A-B" true
      ((createWebRtcTransportHandler "A" "room-A-B" false pairedAB).1)).1)).1

/-- The concurrent end state of four simultaneous joins under the racing
schedule: A pushes and sees length 1; B, C, D push; B, C, D all pass the
length check; their pops interleave as B pops A, C pops B, D pops C,
B pops D; then each runs its pairing step. -/
def racedState : ConcState :=
  runSched (mkConc ["A", "B", "C", "D"])
    [0, 0, 1, 2, 3, 1, 2, 3, 1, 2, 3, 1, 1, 2, 2, 3, 3]

/-- The state after A and B are paired and A has created send transport 0
for the room. -/
def sendReadyAB : ServerState :=
  (createWebRtcTransportHandler "A" "room-A-B" true pairedAB).1

/-- The state after A and B are paired and both have disconnected again. -/
def bothLeftAB : ServerState :=
  (disconnectHandler "B" (disconnectHandler "A" pairedAB).1).1

/-- C1: under four concurrent `join` handlers (two pairing attempts racing
across the suspension points of the non-atomic lPush / lLen / rPop / rPop
sequence), the schedule of `racedState` ends with a single room pairing A
with D, while B and C have each been popped from the pool by a pairing
attempt that obtained only one id and discarded it: B and C are in no room
and no longer waiting.  This contradicts the claimed atomic exactly-once
pairing (two disjoint rooms, every pairing removing exactly two
entries). -/
theorem c1_nonatomic_pairing_race :
    racedState.srv.rooms = [(roomNameOf "A" "D", defaultMediaCodecs)]
    ∧ racedState.srv.peerRooms.lookup "B" = none
    ∧ racedState.srv.peerRooms.lookup "C" = none
    ∧ racedState.srv.pool = []
    ∧ (racedState.hs.map CJoin.phase) = [.done, .done, .done, .done]
    ∧ racedState.evs = [⟨"A", "matched"⟩, ⟨"D", "matched"⟩] := by
  decide

/-- C2 counterexample: four distinct peers whose concatenated names
collide join in sequence — `room-` ++ "x-y" ++ `-` ++ "z" and
`room-` ++ "x" ++ `-` ++ "y-z" are the same string — so the second pairing
overwrites the first room entry: the run ends with one room holding four
members instead of two rooms of two, refuting the claim as stated for
arbitrary distinct identifiers. -/
theorem c2_pairing_collision_counterexample :
    let l := ["x-y", "z", "x", "y-z"]
    let s := runJoins l (initState l)
    l.Nodup ∧ l.length % 2 = 0
    ∧ s.rooms.length = 1
    ∧ roomMembers s "room-x-y-z" = ["x-y", "z", "x", "y-z"] := by
  decide

/-- C3 counterexample: the same connection sends `join` twice; after the
`lPush` of the second handler (an observable shared-store state, before
its pops) the waiting pool holds the identifier twice — `lPush` is not
idempotent.  The second handler then pops both copies and pairs the peer
with itself, producing the degenerate room `room-A-A`. -/
theorem c3_duplicate_in_pool_counterexample :
    (runSched (mkConc ["A", "A"]) [0, 0, 1]).srv.pool = ["A", "A"]
    ∧ ((runSched (mkConc ["A", "A"]) [0, 0, 1]).srv.pool.count "A" = 2)
    ∧ (runSched (mkConc ["A", "A"]) [0, 0, 1, 1, 1, 1, 1]).srv.rooms
        = [(roomNameOf "A" "A", defaultMediaCodecs)] := by
  decide

/-- C4: in `sendReadyAB` peers A and B are paired and A owns transport 0;
when A disconnects, the `peer-disconnected` emit goes to socket.io room
`room-A-B`, which no socket ever joined (the server never calls
`socket.join`), so B receives zero events, not one; and the handler
removes no transport, so transport 0 is still registered and a subsequent
`connectTransport` succeeds on the stale handle instead of failing with
`Transport not found`. -/
theorem c4_disconnect_silent_and_stale :
    (disconnectHandler "A" sendReadyAB).2 = []
    ∧ (disconnectHandler "A" sendReadyAB).1.transports.lookup 0
        = some ⟨"A", true, false⟩
    ∧ (connectTransportHandler 0 (disconnectHandler "A" sendReadyAB).1).2
        = .connected := by
  decide

/-- C5: in `sendReadyAB` peers A and B are paired and A owns send
transport 0; when A produces, the `new-producer` emit goes to socket.io
room `room-A-B`, which no socket ever joined, so B receives zero
`new-producer` events instead of exactly one; and a second `produce` of
the same kind from the same peer creates a second engine producer of that
kind (no supersede) and again broadcasts to nobody. -/
theorem c5_new_producer_broadcast_lost :
    (produceHandler "A" 0 "video" "video/VP8" sendReadyAB).2.1 = []
    ∧ (produceHandler "A" 0 "video" "video/VP8" sendReadyAB).2.2 = .ok 1
    ∧ (produceHandler "A" 0 "video" "video/VP8"
        (produceHandler "A" 0 "video" "video/VP8" sendReadyAB).1).2.1 = []
    ∧ (produceHandler "A" 0 "video" "video/VP8"
        (produceHandler "A" 0 "video" "video/VP8" sendReadyAB).1).2.2 = .ok 2
    ∧ ((produceHandler "A" 0 "video" "video/VP8"
        (produceHandler "A" 0 "video" "video/VP8" sendReadyAB).1).1.producers.filter
          (fun p => p.kind == "video")).length = 2 := by
  decide

/-- C9: peers A and B are paired into `room-A-B`; in `bothLeftAB` both
have disconnected, leaving the room with zero members — yet the `rooms`
map still holds the room and its router: the disconnect handler never
destroys rooms or routers, so room state persists after both members have
left, contrary to the claimed lifecycle. -/
theorem c9_room_never_destroyed :
    roomMembers bothLeftAB "room-A-B" = []
    ∧ bothLeftAB.peerRooms = []
    ∧ bothLeftAB.rooms.lookup "room-A-B" = some defaultMediaCodecs := by
  decide

/-- C7: the `resume-consumer` handler is a no-op: for every state and every
consumer id it changes nothing (in particular it never resumes a paused
consumer and never reports `ConsumerNotFound`); concretely, after A has
consumed producer 2 obtaining the paused consumer 3, resuming consumer 3
leaves it paused. -/
theorem c7_resume_consumer_noop :
    (∀ (s : ServerState) (cid : Nat), resumeConsumerHandler cid s = s)
    ∧ ((resumeConsumerHandler 3
          (consumeHandler "A" "room-A-B" 2 ["video/VP8"] mediaReadyAB).1).consumers.find?
            (fun c => c.id == 3)
        = some ⟨3, 2, "A", "video", true⟩) :=
  ⟨fun _ _ => rfl, by decide⟩

/-- C8: for a room absent from the `rooms` map the
`getRouterRtpCapabilities` handler never invokes its callback, so the
request receives zero replies — silence — rather than the claimed failed
response carrying `RoomNotFound`. -/
theorem c8_get_capabilities_silent_on_absent_room
    (s : ServerState) (roomName : String)
    (h : s.rooms.lookup roomName = none) :
    getRouterRtpCapabilitiesHandler roomName s = none := by
  simpa [getRouterRtpCapabilitiesHandler] using h

/-- Witness for C8: in the reachable state where A and B share `room-A-B`,
a request for the absent room `room-Z` gets no reply. -/
theorem c8_get_capabilities_silent_on_absent_room_witness :
    pairedAB.rooms.lookup "room-Z" = none
    ∧ getRouterRtpCapabilitiesHandler "room-Z" pairedAB = none :=
  ⟨by decide, c8_get_capabilities_silent_on_absent_room pairedAB "room-Z" (by decide)⟩

/-- C10: a `produce` request on a registered transport always succeeds and
returns the fresh producer id even when the requesting socket has no
`peerRooms` entry; the `new-producer` broadcast is then silently skipped,
and the engine-side producer exists while its peer is a member of no
room. -/
theorem c10_produce_without_room
    (s : ServerState) (sid : String) (tid : Nat) (kind codec : String)
    (h1 : (s.transports.lookup tid).isSome = true)
    (h2 : s.peerRooms.lookup sid = none) :
    produceHandler sid tid kind codec s
      = ({ s with producers := ⟨s.nextId, tid, kind, codec⟩ :: s.producers,
                  nextId := s.nextId + 1 },
         [], .ok s.nextId) := by
  obtain ⟨t, ht⟩ := Option.isSome_iff_exists.mp h1
  simp [produceHandler, ht, h2]

/-- Witness for C10: socket C (never paired, no `peerRooms` entry) creates
a transport for the room of A and B — the handler only checks that the
room exists, not that the caller is a member — and then produces on it:
the call succeeds, broadcasts nothing, and leaves an engine producer owned
by a roomless peer. -/
theorem c10_produce_without_room_witness :
    let s0 := (joinHandler "B" (joinHandler "A" (initState ["A", "B", "C"])).1).1
    let s1 := (createWebRtcTransportHandler "C" "room-A-B" true s0).1
    ((s1.transports.lookup 0).isSome = true ∧ s1.peerRooms.lookup "C" = none)
    ∧ produceHandler "C" 0 "audio" "audio/opus" s1
        = ({ s1 with producers := ⟨s1.nextId, 0, "audio", "audio/opus"⟩ :: s1.producers,
                     nextId := s1.nextId + 1 },
           [], .ok s1.nextId) :=
  ⟨⟨by decide, by decide⟩,
   c10_produce_without_room _ "C" 0 "audio" "audio/opus" (by decide) (by decide)⟩

/-- C6: with the room present and producer `p` registered under `pid`
(the `find?` hypotheses mirror the lookups the handler performs), the
`consume` handler (a) fails with the `Cannot consume producer` error — the
`NotConsumable` case — when the requester capabilities do not contain the
producer codec, (b) fails with the `Receiving transport not found` error —
the `TransportNotFound` case — when the capabilities overlap but the
requester has no registered receive transport, and (c) otherwise succeeds,
replying with the kind of the producer and creating the engine consumer
with `paused := true`.  (The code checks only that a receive transport is
registered for the socket, not its DTLS connection state.) -/
theorem c6_consume_capability_check
    (s : ServerState) (sid roomName : String) (pid : Nat)
    (caps : List String) (p : Producer)
    (hroom : (s.rooms.lookup roomName).isSome = true)
    (hp : s.producers.find? (fun q => q.id == pid) = some p) :
    (caps.contains p.codec = false →
      consumeHandler sid roomName pid caps s
        = (s, .error ("Cannot consume producer: " ++ toString pid)))
    ∧ (caps.contains p.codec = true →
        s.transports.find? (fun e => e.2.socketId == sid && !e.2.isProducer) = none →
        consumeHandler sid roomName pid caps s
          = (s, .error "Receiving transport not found for this consumer"))
    ∧ (caps.contains p.codec = true →
        (s.transports.find? (fun e => e.2.socketId == sid && !e.2.isProducer)).isSome = true →
        consumeHandler sid roomName pid caps s
          = ({ s with consumers := ⟨s.nextId, pid, sid, p.kind, true⟩ :: s.consumers,
                      nextId := s.nextId + 1 },
             .ok s.nextId pid p.kind)) := by
  refine ⟨fun hc => ?_, fun hc hnone => ?_, fun hc hsome => ?_⟩
  · have hc2 : p.codec ∉ caps := by simpa using hc
    simp [consumeHandler, canConsume, hroom, hp, hc2]
  · have hc2 : p.codec ∈ caps := by simpa using hc
    simp [consumeHandler, canConsume, hroom, hp, hc2, hnone]
  · have hc2 : p.codec ∈ caps := by simpa using hc
    obtain ⟨e, he⟩ := Option.isSome_iff_exists.mp hsome
    simp [consumeHandler, canConsume, hroom, hp, hc2, he]

/-- Witness for C6: in the reachable state `mediaReadyAB`, socket A (owner
of receive transport 0) successfully consumes video producer 2 with
overlapping capabilities: the reply kind is the producer kind and the
consumer is created paused. -/
theorem c6_consume_capability_check_witness :
    ((mediaReadyAB.rooms.lookup "room-A-B").isSome = true
      ∧ mediaReadyAB.producers.find? (fun q => q.id == 2)
          = some ⟨2, 1, "video", "video/VP8"⟩)
    ∧ ((["video/VP8"].contains "video/VP8" = false →
          consumeHandler "A" "room-A-B" 2 ["video/VP8"] mediaReadyAB
            = (mediaReadyAB, .error ("Cannot consume producer: " ++ toString 2)))
        ∧ (["video/VP8"].contains "video/VP8" = true →
            mediaReadyAB.transports.find?
                (fun e => e.2.socketId == "A" && !e.2.isProducer) = none →
            consumeHandler "A" "room-A-B" 2 ["video/VP8"] mediaReadyAB
              = (mediaReadyAB, .error "Receiving transport not found for this consumer"))
        ∧ (["video/VP8"].contains "video/VP8" = true →
            (mediaReadyAB.transports.find?
                (fun e => e.2.socketId == "A" && !e.2.isProducer)).isSome = true →
            consumeHandler "A" "room-A-B" 2 ["video/VP8"] mediaReadyAB
              = ({ mediaReadyAB with
                    consumers := ⟨mediaReadyAB.nextId, 2, "A", "video", true⟩
                      :: mediaReadyAB.consumers,
                    nextId := mediaReadyAB.nextId + 1 },
                 .ok mediaReadyAB.nextId 2 "video"))) :=
  ⟨⟨by decide, by decide⟩,
   c6_consume_capability_check mediaReadyAB "A" "room-A-B" 2 ["video/VP8"]
     ⟨2, 1, "video", "video/VP8"⟩ (by decide) (by decide)⟩

/-- The pool of the state a completed `join` handler leaves behind: the
pushed pool when the length check fails, and the pool after the two pops
otherwise (the pairing block never touches the pool). -/
theorem joinHandler_pool_eq (sid : String) (s : ServerState) :
    ((joinHandler sid s).1).pool =
      if (sid :: s.pool).length ≥ 2 then (sid :: s.pool).dropLast.dropLast
      else sid :: s.pool := by
  by_cases h : 1 ≤ s.pool.length
  · rcases h1 : (sid :: s.pool).getLast? with _ | a
    · simp [joinHandler, runPhases, stepJoin, lPush, rPop, h, h1]
    · rcases h2 : (sid :: s.pool).dropLast.getLast? with _ | b
      · simp [joinHandler, runPhases, stepJoin, lPush, rPop, h, h1, h2]
      · simp [joinHandler, runPhases, stepJoin, lPush, rPop, h, h1, h2]
  · simp [joinHandler, runPhases, stepJoin, lPush, h]

/-- Every pool state at a suspension point of a `join` handler whose
socket is not already waiting is duplicate-free. -/
theorem joinPools_nodup (sid : String) (s : ServerState)
    (h1 : sid ∉ s.pool) (h2 : s.pool.Nodup) :
    ∀ q ∈ joinPools sid s, q.Nodup := by
  have hp : (sid :: s.pool).Nodup := List.nodup_cons.mpr ⟨h1, h2⟩
  have hd1 : (sid :: s.pool).dropLast.Nodup :=
    hp.sublist (List.dropLast_sublist _)
  have hd2 : (sid :: s.pool).dropLast.dropLast.Nodup :=
    hd1.sublist (List.dropLast_sublist _)
  intro q hq
  by_cases h : 1 ≤ s.pool.length <;>
    simp [joinPools, lPush, h] at hq
  · rcases hq with rfl | rfl | rfl
    · exact hp
    · exact hd1
    · exact hd2
  · subst hq
    exact hp

/-- The disconnect handler leaves exactly the `lRem`-ed pool. -/
theorem disconnectHandler_pool_eq (sid : String) (s : ServerState) :
    ((disconnectHandler sid s).1).pool = s.pool.erase sid := by
  unfold disconnectHandler
  rcases h : s.peerRooms.lookup sid with _ | r <;> simp [h, lRem1]

/-- The final pool of a completed `join` handler is duplicate-free when the
socket was not already waiting. -/
theorem joinHandler_pool_nodup (sid : String) (s : ServerState)
    (h1 : sid ∉ s.pool) (h2 : s.pool.Nodup) :
    ((joinHandler sid s).1).pool.Nodup := by
  have hp : (sid :: s.pool).Nodup := List.nodup_cons.mpr ⟨h1, h2⟩
  rw [joinHandler_pool_eq]
  by_cases h : 1 ≤ s.pool.length <;> simp [h]
  · exact (hp.sublist (List.dropLast_sublist _)).sublist
      (List.dropLast_sublist _)
  · exact ⟨h1, h2⟩

/-- C3 amended: the waiting pool never contains a duplicate identifier at
any suspension point of a sequential run, provided no connection enqueues
itself while its id is still in the pool — the amendment the
counterexample forces, since the `lPush` of the handler is not idempotent
and deduplicates nothing. -/
theorem c3_no_duplicate_in_pool :
    ∀ (ops : List SOp) (s : ServerState),
      s.pool.Nodup → safeOps s ops = true →
      ∀ q ∈ opPools s ops, q.Nodup := by
  intro ops
  induction ops with
  | nil =>
      intro s h0 hs q hq
      simp [opPools] at hq
  | cons op rest ih =>
      intro s h0 hs q hq
      cases op with
      | join sid =>
          simp only [safeOps, Bool.and_eq_true, Bool.not_eq_true'] at hs
          obtain ⟨hnotin, hs2⟩ := hs
          have hnotin2 : sid ∉ s.pool := by
            simpa using hnotin
          simp only [opPools, List.mem_append] at hq
          rcases hq with hq | hq
          · exact joinPools_nodup sid s hnotin2 h0 q hq
          · exact ih ((joinHandler sid s).1)
              (joinHandler_pool_nodup sid s hnotin2 h0) hs2 q hq
      | disc sid =>
          simp only [safeOps] at hs
          simp only [opPools, List.mem_cons] at hq
          rcases hq with rfl | hq
          · rw [disconnectHandler_pool_eq]
            exact h0.erase sid
          · refine ih ((disconnectHandler sid s).1) ?_ hs q hq
            rw [disconnectHandler_pool_eq]
            exact h0.erase sid

/-- Witness for C3 amended: a safe run — joins by distinct connections,
a disconnect, and a re-join of an identifier that is no longer waiting —
keeps every observable pool state duplicate-free. -/
theorem c3_no_duplicate_in_pool_witness :
    ((initState ["A", "B", "C"]).pool.Nodup
      ∧ safeOps (initState ["A", "B", "C"])
          [.join "A", .join "B", .join "C", .disc "C", .join "C"] = true)
    ∧ (∀ q ∈ opPools (initState ["A", "B", "C"])
          [.join "A", .join "B", .join "C", .disc "C", .join "C"], q.Nodup) :=
  ⟨⟨by decide, by decide⟩,
   c3_no_duplicate_in_pool
     [.join "A", .join "B", .join "C", .disc "C", .join "C"]
     (initState ["A", "B", "C"]) (by decide) (by decide)⟩

/-- A `join` into an empty pool only enqueues: the handler replies
`waiting` and changes nothing but the pool. -/
theorem joinHandler_empty (sid : String) (s : ServerState) (h : s.pool = []) :
    joinHandler sid s = ({ s with pool := [sid] }, []) := by
  cases s
  simp only at h
  subst h
  rfl

/-- A `join` while exactly one peer `b` is waiting pairs `b` (popped
first, hence named first in the room) with the joiner `a`: both pops
succeed, the room is registered, both peers are mapped to it in pop
order, and `matched` is emitted to each via its self room. -/
theorem joinHandler_single (a b : String) (s : ServerState)
    (h : s.pool = [b]) :
    joinHandler a s =
      (let rn := roomNameOf b a
       let s1 := { s with pool := [],
                          rooms := mapSet rn defaultMediaCodecs s.rooms,
                          peerRooms := mapSet a rn (mapSet b rn s.peerRooms) }
       (s1, ioTo s1 b "matched" ++ ioTo s1 a "matched")) := by
  cases s
  simp only at h
  subst h
  simp [joinHandler, runPhases, stepJoin, lPush, rPop]

/-- Setting a key that is absent from a JS map appends the binding at the
end. -/
theorem mapSet_fresh [DecidableEq κ] (k : κ) (v : α) (m : List (κ × α))
    (h : ∀ e ∈ m, e.1 ≠ k) : mapSet k v m = m ++ [(k, v)] := by
  have h2 : m.any (fun e => decide (e.1 = k)) = false := by
    simp only [List.any_eq_false, decide_eq_true_eq]
    exact h
  simp [mapSet, h2]

/-- Looking up an absent key in an association list yields nothing. -/
theorem lookup_none_of_fresh [DecidableEq κ] (k : κ) (m : List (κ × α))
    (h : ∀ e ∈ m, e.1 ≠ k) : m.lookup k = none := by
  rw [List.lookup_eq_none_iff]
  intro p hp
  simpa [bne_iff_ne] using (h p hp).symm

theorem runJoins_nil (s : ServerState) : runJoins [] s = s := rfl

theorem runJoins_cons (x : String) (l : List String) (s : ServerState) :
    runJoins (x :: l) s = runJoins l (joinHandler x s).1 := rfl

/-- The end state of a sequential run of `join` calls from a state with an
empty pool: every consecutive pair of joiners is FIFO-paired, appending its
two `peerRooms` bindings and its room entry, provided the joiners are
pairwise distinct and fresh and the derived room names neither repeat nor
collide with existing rooms (a trailing odd joiner only waits). -/
theorem runJoins_char : ∀ (l : List String) (s : ServerState),
    s.pool = [] → l.Nodup →
    (∀ x ∈ l, ∀ e ∈ s.peerRooms, e.1 ≠ x) →
    (pairRoomNames l).Nodup →
    (∀ r ∈ pairRoomNames l, ∀ e ∈ s.rooms, e.1 ≠ r) →
    (runJoins l s).peerRooms = s.peerRooms ++ pairAssign l
    ∧ (runJoins l s).rooms = s.rooms ++ pairRooms l
  | [], s => by
      intro hp _ _ _ _
      simp [runJoins_nil, pairAssign, pairRooms]
  | [x], s => by
      intro hp _ _ _ _
      rw [runJoins_cons, joinHandler_empty x s hp]
      simp [runJoins_nil, pairAssign, pairRooms]
  | x :: y :: rest, s => by
      intro hp hnd hfresh hrn hroomfresh
      have hxy : x ≠ y := by
        have hx := (List.nodup_cons.mp hnd).1
        exact fun he => hx (by rw [he]; exact List.mem_cons_self y rest)
      set rn := roomNameOf x y with hrndef
      have hs1 : (joinHandler x s).1 = { s with pool := [x] } := by
        rw [joinHandler_empty x s hp]
      have hs2pool : ({ s with pool := [x] } : ServerState).pool = [x] := rfl
      have hs2 := joinHandler_single y x ({ s with pool := [x] }) hs2pool
      rw [runJoins_cons, runJoins_cons, hs1, hs2]
      simp only
      set s2 : ServerState :=
        { s with pool := [],
                 rooms := mapSet rn defaultMediaCodecs s.rooms,
                 peerRooms := mapSet y rn (mapSet x rn s.peerRooms) } with hs2def
      have hpr2 : s2.peerRooms = s.peerRooms ++ [(x, rn), (y, rn)] := by
        have e1 : mapSet x rn s.peerRooms = s.peerRooms ++ [(x, rn)] :=
          mapSet_fresh x rn s.peerRooms
            (fun e he => hfresh x (by simp) e he)
        have e2 : mapSet y rn (s.peerRooms ++ [(x, rn)])
            = s.peerRooms ++ [(x, rn)] ++ [(y, rn)] := by
          refine mapSet_fresh y rn _ ?_
          intro e he
          rcases List.mem_append.mp he with he | he
          · exact hfresh y (by simp) e he
          · simp at he
            subst he
            exact hxy
        simp only [hs2def, e1, e2, List.append_assoc]
        rfl
      have hrm2 : s2.rooms = s.rooms ++ [(rn, defaultMediaCodecs)] := by
        have e3 : mapSet rn defaultMediaCodecs s.rooms
            = s.rooms ++ [(rn, defaultMediaCodecs)] :=
          mapSet_fresh rn defaultMediaCodecs s.rooms
            (fun e he => hroomfresh rn (by simp [pairRoomNames, hrndef]) e he)
        simp only [hs2def, e3]
      have hrest := runJoins_char rest s2 ?_ ?_ ?_ ?_ ?_
      · refine ⟨?_, ?_⟩
        · rw [hrest.1, hpr2]
          simp [pairAssign, hrndef, List.append_assoc]
        · rw [hrest.2, hrm2]
          simp [pairRooms, hrndef, List.append_assoc]
      · rfl
      · exact (List.nodup_cons.mp (List.nodup_cons.mp hnd).2).2
      · intro p hpmem e he
        rw [hpr2] at he
        rcases List.mem_append.mp he with he | he
        · exact hfresh p (by simp [hpmem]) e he
        · have hnd1 := List.nodup_cons.mp hnd
          have hnd2 := List.nodup_cons.mp hnd1.2
          simp at he
          rcases he with he | he <;> rw [he] <;> simp only
          · exact fun hc => hnd1.1 (by simp [hc, hpmem])
          · exact fun hc => hnd2.1 (by simp [hc, hpmem])
      · have : pairRoomNames (x :: y :: rest) = rn :: pairRoomNames rest := by
          simp [pairRoomNames, hrndef]
        rw [this] at hrn
        exact (List.nodup_cons.mp hrn).2
      · intro r hr e he
        rw [hrm2] at he
        rcases List.mem_append.mp he with he | he
        · exact hroomfresh r (by simp [pairRoomNames, hr]) e he
        · have hnames : pairRoomNames (x :: y :: rest) = rn :: pairRoomNames rest := by
            simp [pairRoomNames, hrndef]
          rw [hnames] at hrn
          simp at he
          rw [he]
          simp only
          exact fun hc => (List.nodup_cons.mp hrn).1 (hc ▸ hr)

theorem assocMembers_cons_pos (a rn r : String) (t : List (String × String))
    (h : rn = r) : assocMembers ((a, rn) :: t) r = a :: assocMembers t r := by
  simp [assocMembers, List.filter_cons, h]

theorem assocMembers_cons_neg (a rn r : String) (t : List (String × String))
    (h : rn ≠ r) : assocMembers ((a, rn) :: t) r = assocMembers t r := by
  simp [assocMembers, List.filter_cons, h]

theorem assocMembers_nil_of (m : List (String × String)) (r : String)
    (h : ∀ e ∈ m, e.2 ≠ r) : assocMembers m r = [] := by
  have h2 : m.filter (fun e => e.2 == r) = [] := by
    rw [List.filter_eq_nil_iff]
    intro e he
    simpa using h e he
  simp [assocMembers, h2]

theorem assocMembers_sub (m : List (String × String)) (r p : String)
    (h : p ∈ assocMembers m r) : p ∈ m.map Prod.fst := by
  simp only [assocMembers, List.mem_map, List.mem_filter] at h ⊢
  obtain ⟨e, ⟨he, _⟩, hp⟩ := h
  exact ⟨e, he, hp⟩

/-- The room name of every binding produced by FIFO pairing is one of the
produced room names. -/
theorem pairAssign_snd : ∀ (l : List String) (e : String × String),
    e ∈ pairAssign l → e.2 ∈ pairRoomNames l
  | [], e => by simp [pairAssign]
  | [x], e => by simp [pairAssign]
  | x :: y :: rest, e => by
      intro he
      simp only [pairAssign, List.mem_cons] at he
      rcases he with rfl | rfl | he
      · simp [pairRoomNames]
      · simp [pairRoomNames]
      · simp only [pairRoomNames, List.mem_cons]
        exact Or.inr (pairAssign_snd rest e he)

/-- FIFO pairing of an even run binds exactly the joiners, in order. -/
theorem pairAssign_keys : ∀ (l : List String), l.length % 2 = 0 →
    (pairAssign l).map Prod.fst = l
  | [] => by simp [pairAssign]
  | [x] => by intro h; simp at h
  | x :: y :: rest => by
      intro h
      have h2 : rest.length % 2 = 0 := by
        simp only [List.length_cons] at h
        omega
      simp [pairAssign, pairAssign_keys rest h2]

theorem pairRooms_names : ∀ (l : List String),
    (pairRooms l).map Prod.fst = pairRoomNames l
  | [] => by simp [pairRooms, pairRoomNames]
  | [x] => by simp [pairRooms, pairRoomNames]
  | x :: y :: rest => by
      simp [pairRooms, pairRoomNames, pairRooms_names rest]

theorem pairRooms_length : ∀ (l : List String), l.length % 2 = 0 →
    (pairRooms l).length = l.length / 2
  | [] => by simp [pairRooms]
  | [x] => by intro h; simp at h
  | x :: y :: rest => by
      intro h
      have h2 : rest.length % 2 = 0 := by
        simp only [List.length_cons] at h
        omega
      have := pairRooms_length rest h2
      simp only [pairRooms, List.length_cons, this]
      omega

/-- Each produced room has exactly the two members of its pair, distinct
when the joiners are distinct and the room names do not collide. -/
theorem pairAssign_members : ∀ (l : List String), l.Nodup →
    (pairRoomNames l).Nodup → ∀ r ∈ pairRoomNames l,
    ∃ a b, a ≠ b ∧ assocMembers (pairAssign l) r = [a, b]
  | [] => by simp [pairRoomNames]
  | [x] => by simp [pairRoomNames]
  | x :: y :: rest => by
      intro hnd hrn r hr
      have hxy : x ≠ y := by
        have hx := (List.nodup_cons.mp hnd).1
        exact fun he => hx (by rw [he]; exact List.mem_cons_self y rest)
      have hnames : pairRoomNames (x :: y :: rest)
          = roomNameOf x y :: pairRoomNames rest := by
        simp [pairRoomNames]
      rw [hnames] at hr hrn
      have hrn1 := List.nodup_cons.mp hrn
      have hpa : pairAssign (x :: y :: rest)
          = (x, roomNameOf x y) :: (y, roomNameOf x y) :: pairAssign rest := by
        simp [pairAssign]
      rcases List.mem_cons.mp hr with rfl | hr2
      · have h0 : assocMembers (pairAssign rest) (roomNameOf x y) = [] :=
          assocMembers_nil_of _ _
            (fun e he hc => hrn1.1 (hc ▸ pairAssign_snd rest e he))
        refine ⟨x, y, hxy, ?_⟩
        rw [hpa, assocMembers_cons_pos _ _ _ _ rfl,
          assocMembers_cons_pos _ _ _ _ rfl, h0]
      · have hne : roomNameOf x y ≠ r := fun hc => hrn1.1 (hc ▸ hr2)
        rw [hpa, assocMembers_cons_neg _ _ _ _ hne,
          assocMembers_cons_neg _ _ _ _ hne]
        exact pairAssign_members rest
          (List.nodup_cons.mp (List.nodup_cons.mp hnd).2).2 hrn1.2 r hr2

/-- Every joiner of an even run is bound to exactly one produced room. -/
theorem pairAssign_lookup : ∀ (l : List String), l.length % 2 = 0 →
    l.Nodup → ∀ p ∈ l,
    ∃ r, (pairAssign l).lookup p = some r ∧ r ∈ pairRoomNames l
  | [] => by simp
  | [x] => by intro h; simp at h
  | x :: y :: rest => by
      intro heven hnd p hp
      have heven2 : rest.length % 2 = 0 := by
        simp only [List.length_cons] at heven
        omega
      have hx := (List.nodup_cons.mp hnd).1
      have hnd2 := (List.nodup_cons.mp hnd).2
      have hy := (List.nodup_cons.mp hnd2).1
      have hnd3 := (List.nodup_cons.mp hnd2).2
      have hpa : pairAssign (x :: y :: rest)
          = (x, roomNameOf x y) :: (y, roomNameOf x y) :: pairAssign rest := by
        simp [pairAssign]
      have hnames : pairRoomNames (x :: y :: rest)
          = roomNameOf x y :: pairRoomNames rest := by
        simp [pairRoomNames]
      rcases List.mem_cons.mp hp with rfl | hp2
      · refine ⟨roomNameOf p y, ?_, by simp [hnames]⟩
        rw [hpa]
        exact List.lookup_cons_self
      · rcases List.mem_cons.mp hp2 with rfl | hp3
        · have hpx : (p == x) = false := by
            simp only [beq_eq_false_iff_ne]
            exact fun he => hx (by rw [← he]; exact List.mem_cons_self p rest)
          refine ⟨roomNameOf x p, ?_, by simp [hnames]⟩
          rw [hpa, List.lookup_cons, hpx]
          exact List.lookup_cons_self
        · have hpx : (p == x) = false := by
            simp only [beq_eq_false_iff_ne]
            exact fun he => hx (by rw [← he]; exact List.mem_cons_of_mem y hp3)
          have hpy : (p == y) = false := by
            simp only [beq_eq_false_iff_ne]
            exact fun he => hy (by rw [← he]; exact hp3)
          obtain ⟨r, hl, hm⟩ := pairAssign_lookup rest heven2 hnd3 p hp3
          refine ⟨r, ?_, by simp [hnames, hm]⟩
          rw [hpa, List.lookup_cons, hpx, List.lookup_cons, hpy]
          exact hl

/-- Every joiner of an even run appears in the member list of exactly one
produced room. -/
theorem pairAssign_count_one : ∀ (l : List String), l.length % 2 = 0 →
    l.Nodup → (pairRoomNames l).Nodup → ∀ p ∈ l,
    (pairRoomNames l).countP
      (fun r => decide (p ∈ assocMembers (pairAssign l) r)) = 1
  | [] => by simp
  | [x] => by intro h; simp at h
  | x :: y :: rest => by
      intro heven hnd hrn p hp
      have heven2 : rest.length % 2 = 0 := by
        simp only [List.length_cons] at heven
        omega
      have hx := (List.nodup_cons.mp hnd).1
      have hnd2 := (List.nodup_cons.mp hnd).2
      have hy := (List.nodup_cons.mp hnd2).1
      have hnd3 := (List.nodup_cons.mp hnd2).2
      have hxy : x ≠ y :=
        fun he => hx (by rw [he]; exact List.mem_cons_self y rest)
      have hnames : pairRoomNames (x :: y :: rest)
          = roomNameOf x y :: pairRoomNames rest := by
        simp [pairRoomNames]
      have hpa : pairAssign (x :: y :: rest)
          = (x, roomNameOf x y) :: (y, roomNameOf x y) :: pairAssign rest := by
        simp [pairAssign]
      rw [hnames] at hrn
      have hrn1 := List.nodup_cons.mp hrn
      have h0 : assocMembers (pairAssign rest) (roomNameOf x y) = [] :=
        assocMembers_nil_of _ _
          (fun e he hc => hrn1.1 (hc ▸ pairAssign_snd rest e he))
      have hmem_rn : assocMembers (pairAssign (x :: y :: rest)) (roomNameOf x y)
          = [x, y] := by
        rw [hpa, assocMembers_cons_pos _ _ _ _ rfl,
          assocMembers_cons_pos _ _ _ _ rfl, h0]
      have hmem_tail : ∀ r ∈ pairRoomNames rest,
          assocMembers (pairAssign (x :: y :: rest)) r
            = assocMembers (pairAssign rest) r := by
        intro r hr
        have hne : roomNameOf x y ≠ r := fun hc => hrn1.1 (hc ▸ hr)
        rw [hpa, assocMembers_cons_neg _ _ _ _ hne,
          assocMembers_cons_neg _ _ _ _ hne]
      rw [hnames, List.countP_cons]
      rcases List.mem_cons.mp hp with rfl | hp2
      · have hfr : decide (p ∈ assocMembers (pairAssign (p :: y :: rest))
            (roomNameOf p y)) = true := by
          rw [hmem_rn]
          simp
        have hzero : (pairRoomNames rest).countP
            (fun r => decide (p ∈ assocMembers (pairAssign (p :: y :: rest)) r))
              = 0 := by
          rw [List.countP_eq_zero]
          intro r hr hcon
          simp only [hmem_tail r hr, decide_eq_true_eq] at hcon
          have := assocMembers_sub _ _ _ hcon
          rw [pairAssign_keys rest heven2] at this
          exact hx (List.mem_cons_of_mem y this)
        rw [hzero, hfr]
        simp
      · rcases List.mem_cons.mp hp2 with rfl | hp3
        · have hfr : decide (p ∈ assocMembers (pairAssign (x :: p :: rest))
              (roomNameOf x p)) = true := by
            rw [hmem_rn]
            simp
          have hzero : (pairRoomNames rest).countP
              (fun r => decide (p ∈ assocMembers (pairAssign (x :: p :: rest)) r))
                = 0 := by
            rw [List.countP_eq_zero]
            intro r hr hcon
            simp only [hmem_tail r hr, decide_eq_true_eq] at hcon
            have := assocMembers_sub _ _ _ hcon
            rw [pairAssign_keys rest heven2] at this
            exact hy this
          rw [hzero, hfr]
          simp
        · have hfr : decide (p ∈ assocMembers (pairAssign (x :: y :: rest))
              (roomNameOf x y)) = false := by
            have hpx : p ≠ x := fun he => hx (he ▸ List.mem_cons_of_mem y hp3)
            have hpy : p ≠ y := fun he => hy (he ▸ hp3)
            rw [hmem_rn]
            simp [hpx, hpy]
          have hcong : (pairRoomNames rest).countP
              (fun r => decide (p ∈ assocMembers (pairAssign (x :: y :: rest)) r))
              = (pairRoomNames rest).countP
                (fun r => decide (p ∈ assocMembers (pairAssign rest) r)) := by
            refine List.countP_congr ?_
            intro r hr
            rw [hmem_tail r hr]
          rw [hcong, hfr,
            pairAssign_count_one rest heven2 hnd3 hrn1.2 p hp3]
          simp

/-- C2 amended: for any sequence of `join` calls from distinct peers, N
even, no disconnects, and — the amendment the name-collision
counterexample forces — pairwise-distinct derived room names: the end
state binds the peers exactly as FIFO pairing of consecutive joiners
prescribes (`pairAssign` / `pairRooms`: each pairing takes the two
earliest-enqueued, not-yet-paired peers, never a peer with itself, never a
peer twice), exactly N/2 rooms exist, each room has exactly two distinct
members, and every peer is mapped to exactly one existing room and listed
as a member of exactly one room. -/
theorem c2_fifo_pairing (l : List String)
    (hnd : l.Nodup) (heven : l.length % 2 = 0)
    (hnames : (pairRoomNames l).Nodup) :
    (runJoins l (initState l)).peerRooms = pairAssign l
    ∧ (runJoins l (initState l)).rooms = pairRooms l
    ∧ (runJoins l (initState l)).rooms.map Prod.fst = pairRoomNames l
    ∧ (runJoins l (initState l)).rooms.length = l.length / 2
    ∧ (∀ r ∈ (runJoins l (initState l)).rooms.map Prod.fst,
        ∃ a b, a ≠ b ∧ roomMembers (runJoins l (initState l)) r = [a, b])
    ∧ (∀ p ∈ l, ∃ r,
        (runJoins l (initState l)).peerRooms.lookup p = some r
        ∧ r ∈ (runJoins l (initState l)).rooms.map Prod.fst)
    ∧ (∀ p ∈ l, ((runJoins l (initState l)).rooms.map Prod.fst).countP
        (fun r => decide (p ∈ roomMembers (runJoins l (initState l)) r)) = 1) := by
  have hchar := runJoins_char l (initState l) rfl hnd
    (by intro x _ e he; simp [initState] at he) hnames
    (by intro r _ e he; simp [initState] at he)
  obtain ⟨h1, h2⟩ := hchar
  rw [show (initState l).peerRooms = [] from rfl, List.nil_append] at h1
  rw [show (initState l).rooms = [] from rfl, List.nil_append] at h2
  refine ⟨h1, h2, ?_, ?_, ?_, ?_, ?_⟩
  · rw [h2, pairRooms_names]
  · rw [h2, pairRooms_length l heven]
  · intro r hr
    rw [h2, pairRooms_names] at hr
    obtain ⟨a, b, hab, hm⟩ := pairAssign_members l hnd hnames r hr
    refine ⟨a, b, hab, ?_⟩
    rw [roomMembers, h1]
    exact hm
  · intro p hp
    obtain ⟨r, hl, hm⟩ := pairAssign_lookup l heven hnd p hp
    refine ⟨r, ?_, ?_⟩
    · rw [h1]
      exact hl
    · rw [h2, pairRooms_names]
      exact hm
  · intro p hp
    rw [h2, pairRooms_names]
    have hco : (pairRoomNames l).countP
        (fun r => decide (p ∈ roomMembers (runJoins l (initState l)) r))
        = (pairRoomNames l).countP
          (fun r => decide (p ∈ assocMembers (pairAssign l) r)) := by
      refine List.countP_congr ?_
      intro r _
      rw [roomMembers, h1]
    rw [hco]
    exact pairAssign_count_one l heven hnd hnames p hp

/-- Witness for C2 amended: four distinct, collision-free peers joining in
order A, B, C, D end up FIFO-paired into the two rooms `room-A-B` and
`room-C-D`. -/
theorem c2_fifo_pairing_witness :
    ((["A", "B", "C", "D"] : List String).Nodup
      ∧ (["A", "B", "C", "D"] : List String).length % 2 = 0
      ∧ (pairRoomNames ["A", "B", "C", "D"]).Nodup)
    ∧ ((runJoins ["A", "B", "C", "D"]
          (initState ["A", "B", "C", "D"])).peerRooms
        = pairAssign ["A", "B", "C", "D"]
      ∧ (runJoins ["A", "B", "C", "D"]
          (initState ["A", "B", "C", "D"])).rooms
        = pairRooms ["A", "B", "C", "D"]
      ∧ (runJoins ["A", "B", "C", "D"]
          (initState ["A", "B", "C", "D"])).rooms.map Prod.fst
        = pairRoomNames ["A", "B", "C", "D"]
      ∧ (runJoins ["A", "B", "C", "D"]
          (initState ["A", "B", "C", "D"])).rooms.length
        = (["A", "B", "C", "D"] : List String).length / 2
      ∧ (∀ r ∈ (runJoins ["A", "B", "C", "D"]
            (initState ["A", "B", "C", "D"])).rooms.map Prod.fst,
          ∃ a b, a ≠ b ∧ roomMembers (runJoins ["A", "B", "C", "D"]
            (initState ["A", "B", "C", "D"])) r = [a, b])
      ∧ (∀ p ∈ (["A", "B", "C", "D"] : List String), ∃ r,
          (runJoins ["A", "B", "C", "D"]
            (initState ["A", "B", "C", "D"])).peerRooms.lookup p = some r
          ∧ r ∈ (runJoins ["A", "B", "C", "D"]
              (initState ["A", "B", "C", "D"])).rooms.map Prod.fst)
      ∧ (∀ p ∈ (["A", "B", "C", "D"] : List String),
          ((runJoins ["A", "B", "C", "D"]
              (initState ["A", "B", "C", "D"])).rooms.map Prod.fst).countP
            (fun r => decide (p ∈ roomMembers (runJoins ["A", "B", "C", "D"]
              (initState ["A", "B", "C", "D"])) r)) = 1)) :=
  ⟨⟨by decide, by decide, by decide⟩,
   c2_fifo_pairing ["A", "B", "C", "D"] (by decide) (by decide) (by decide)⟩
